import Mathlib

/-!
Verification of the remote-uci bootstrap module (src/remote-uci/src/lib.rs).

The definitions below are a shallow embedding of the Rust source. Machine
integers are modelled as Nat with explicit clamping where the source
converts between widths. Effects (reading the secret file, querying the
host, spawning the engine subprocess) are modelled by passing their results
as explicit inputs to the embedded functions.
-/

namespace RemoteUci

/-- Largest value of the Rust type u32. -/
def u32Max : Nat := 2 ^ 32 - 1

/-- Embeds the expression u32::try_from(n).unwrap_or(u32::MAX): values that
do not fit the 32-bit range collapse to u32::MAX. -/
def u32Clamp (n : Nat) : Nat := min n u32Max

/-- Helper for next_power_of_two: structural recursion on a fuel bound so
that the function reduces inside the kernel. -/
def nptAux : Nat → Nat → Nat
  | 0, _ => 1
  | fuel + 1, n => if n ≤ 1 then 1 else 2 * nptAux fuel ((n + 1) / 2)

/-- Embeds u64::next_power_of_two: the smallest power of two greater than
or equal to n, with next_power_of_two 0 = 1 as in Rust. -/
def next_power_of_two (n : Nat) : Nat := nptAux n n

theorem nptAux_pow (fuel n : Nat) : ∃ k, nptAux fuel n = 2 ^ k := by
  induction fuel generalizing n with
  | zero => exact ⟨0, rfl⟩
  | succ fuel ih =>
    by_cases h : n ≤ 1
    · exact ⟨0, by simp [nptAux, h]⟩
    · obtain ⟨k, hk⟩ := ih ((n + 1) / 2)
      exact ⟨k + 1, by simp [nptAux, h, hk, pow_succ]; ring⟩

theorem le_nptAux (fuel n : Nat) (h : n ≤ fuel + 1) : n ≤ nptAux fuel n := by
  induction fuel generalizing n with
  | zero => simp only [nptAux]; omega
  | succ fuel ih =>
    by_cases h1 : n ≤ 1
    · simp [nptAux, h1]
    · have hrec := ih ((n + 1) / 2) (by omega)
      simp [nptAux, h1]
      omega

theorem nptAux_le (fuel n : Nat) (h : n ≤ fuel + 1) (h2 : 2 ≤ n) :
    nptAux fuel n ≤ 2 * (n - 1) := by
  induction fuel generalizing n with
  | zero => omega
  | succ fuel ih =>
    have h1 : ¬ n ≤ 1 := by omega
    simp only [nptAux, h1, if_false]
    by_cases h3 : 2 ≤ (n + 1) / 2
    · have hrec := ih ((n + 1) / 2) (by omega) h3
      omega
    · have : nptAux fuel ((n + 1) / 2) = 1 := by
        have : (n + 1) / 2 ≤ 1 := by omega
        cases fuel with
        | zero => rfl
        | succ fuel => simp [nptAux, this]
      omega

theorem nptAux_of_le_one (fuel n : Nat) (h : n ≤ 1) : nptAux fuel n = 1 := by
  cases fuel with
  | zero => rfl
  | succ fuel => simp [nptAux, h]

/-- Embeds fn available_memory() from lib.rs, with the sysinfo reading
(available memory in KiB, a u64) passed explicitly:
(sys.available_memory() / 1024).next_power_of_two() / 2. -/
def available_memory (memKiB : Nat) : Nat :=
  next_power_of_two (memKiB / 1024) / 2

example : available_memory 0 = 0 := by decide
example : available_memory 2047 = 0 := by decide
example : available_memory 2048 = 1 := by decide
example : available_memory (3 * 1024 * 1024) = 2048 := by decide
example : next_power_of_two 5 = 8 := by decide

/-- C10: for every u64 available-memory reading m in KiB, available_memory
returns ((m/1024).next_power_of_two())/2, which is 0 or a power of two,
never exceeds m/1024, and is 0 whenever m < 2048. -/
theorem available_memory_power_bound (m : Nat) (hm : m < 2 ^ 64) :
    available_memory m = next_power_of_two (m / 1024) / 2 ∧
    (available_memory m = 0 ∨ ∃ k, available_memory m = 2 ^ k) ∧
    available_memory m ≤ m / 1024 ∧
    (m < 2048 → available_memory m = 0) := by
  refine ⟨rfl, ?_, ?_, ?_⟩
  · obtain ⟨k, hk⟩ := nptAux_pow (m / 1024) (m / 1024)
    cases k with
    | zero =>
      left
      simp [available_memory, next_power_of_two, hk]
    | succ k =>
      right
      refine ⟨k, ?_⟩
      simp only [available_memory, next_power_of_two, hk, pow_succ]
      omega
  · by_cases h : m / 1024 ≤ 1
    · have h1 := nptAux_of_le_one (m / 1024) (m / 1024) h
      simp only [available_memory, next_power_of_two, h1]
      omega
    · have h2 := nptAux_le (m / 1024) (m / 1024) (by omega) (by omega)
      simp only [available_memory, next_power_of_two]
      omega
  · intro h
    have h1 : m / 1024 ≤ 1 := by omega
    have h2 := nptAux_of_le_one (m / 1024) (m / 1024) h1
    simp only [available_memory, next_power_of_two, h2]

/-- C10 witness: the theorem applied at the concrete reading of 3 GiB. -/
theorem available_memory_power_bound_witness :
    available_memory 3145728 = next_power_of_two (3145728 / 1024) / 2 ∧
    (available_memory 3145728 = 0 ∨ ∃ k, available_memory 3145728 = 2 ^ k) ∧
    available_memory 3145728 ≤ 3145728 / 1024 ∧
    (3145728 < 2048 → available_memory 3145728 = 0) :=
  available_memory_power_bound 3145728 (by norm_num)

/-! ## CPU feature detection and engine binary selection (EngineOpts::best) -/

/-- The snapshot of is_x86_feature_detected answers that EngineOpts::best
consults. -/
structure CpuFeatures where
  avx512dq : Bool
  avx512vl : Bool
  avx512vnni : Bool
  avx512f : Bool
  avx512bw : Bool
  bmi2 : Bool
  avx2 : Bool
  sse41 : Bool
  ssse3 : Bool
  sse3 : Bool
  popcnt : Bool

/-- Embeds struct EngineOpts; PathBuf values are modelled as strings. -/
structure EngineOpts where
  engine_x86_64_vnni512 : Option String
  engine_x86_64_avx512 : Option String
  engine_x86_64_bmi2 : Option String
  engine_x86_64_avx2 : Option String
  engine_x86_64_sse41_popcnt : Option String
  engine_x86_64_ssse3 : Option String
  engine_x86_64_sse3_popcnt : Option String
  engine : String

/-- Embeds EngineOpts::best for target_arch x86_64: the literal
filter/or/filter chain from the source, left-associated exactly as Rust
method chaining associates it. -/
def EngineOpts.best (o : EngineOpts) (f : CpuFeatures) : String :=
  (o.engine_x86_64_vnni512.filter (fun _ => f.avx512dq && f.avx512vl && f.avx512vnni)
    |>.or o.engine_x86_64_avx512
    |>.filter (fun _ => f.avx512f && f.avx512bw)
    |>.or o.engine_x86_64_bmi2
    |>.filter (fun _ => f.bmi2)
    |>.or o.engine_x86_64_avx2
    |>.filter (fun _ => f.avx2)
    |>.or o.engine_x86_64_sse41_popcnt
    |>.filter (fun _ => f.sse41)
    |>.or o.engine_x86_64_ssse3
    |>.filter (fun _ => f.ssse3)
    |>.or o.engine_x86_64_sse3_popcnt
    |>.filter (fun _ => f.sse3 && f.popcnt)
    |>.getD o.engine)

/-- The seven optional tiers of EngineOpts::best, in priority order, each
paired with its CPU-feature predicate from the source. -/
def tierTable (o : EngineOpts) (f : CpuFeatures) : List (Option String × Bool) :=
  [(o.engine_x86_64_vnni512, f.avx512dq && f.avx512vl && f.avx512vnni),
   (o.engine_x86_64_avx512, f.avx512f && f.avx512bw),
   (o.engine_x86_64_bmi2, f.bmi2),
   (o.engine_x86_64_avx2, f.avx2),
   (o.engine_x86_64_sse41_popcnt, f.sse41),
   (o.engine_x86_64_ssse3, f.ssse3),
   (o.engine_x86_64_sse3_popcnt, f.sse3 && f.popcnt)]

/-- One stage of the chain in EngineOpts::best: or in the next candidate,
then filter by the tier predicate. -/
def cascadeStep (acc : Option String) (t : Option String × Bool) : Option String :=
  (acc.or t.1).filter (fun _ => t.2)

/-- Candidate selected by the chain semantics: the first configured tier
whose own predicate and the predicates of every later tier all hold. -/
def survivor : List (Option String × Bool) → Option String
  | [] => none
  | t :: rest =>
      if t.2 && rest.all (fun u => u.2) then t.1.or (survivor rest) else survivor rest

/-- Candidate described by the claim: the first configured tier whose own
predicate holds, regardless of the predicates of later tiers. -/
def firstOwnMatch : List (Option String × Bool) → Option String
  | [] => none
  | t :: rest => (t.1.filter (fun _ => t.2)).or (firstOwnMatch rest)

/-- The choice the claim C2 attributes to EngineOpts::best. -/
def bestClaimSpec (o : EngineOpts) (f : CpuFeatures) : String :=
  (firstOwnMatch (tierTable o f)).getD o.engine

/-- The choice EngineOpts::best actually makes, per the amended claim. -/
def bestAmendedSpec (o : EngineOpts) (f : CpuFeatures) : String :=
  (survivor (tierTable o f)).getD o.engine

theorem option_filter_true (o : Option String) : o.filter (fun _ => true) = o := by
  cases o <;> rfl

theorem option_filter_false (o : Option String) : o.filter (fun _ => false) = none := by
  cases o <;> rfl

theorem foldl_cascadeStep (l : List (Option String × Bool)) (acc : Option String) :
    l.foldl cascadeStep acc =
      if l.all (fun u => u.2) then acc.or (survivor l) else survivor l := by
  induction l generalizing acc with
  | nil => simp [survivor]
  | cons t rest ih =>
    obtain ⟨x, b⟩ := t
    cases b with
    | false =>
      simp only [List.foldl_cons, cascadeStep, option_filter_false, ih none, survivor,
        List.all_cons, Bool.false_and, Bool.false_eq_true, if_false]
      cases rest.all (fun u => u.2) <;> simp
    | true =>
      simp only [List.foldl_cons, cascadeStep, option_filter_true, ih (acc.or x), survivor,
        List.all_cons, Bool.true_and]
      by_cases hall : rest.all (fun u => u.2) = true
      · simp [hall, Option.or_assoc]
      · simp [hall]

theorem best_eq_foldl (o : EngineOpts) (f : CpuFeatures) :
    o.best f = ((tierTable o f).foldl cascadeStep none).getD o.engine := rfl

/-- C2 amended: EngineOpts::best returns the first configured engine path
whose own feature predicate and the feature predicates of every
lower-priority tier all hold on the CPU snapshot, falling back to the
mandatory engine path; the chain re-filters a surviving higher-priority
candidate through each later tier predicate. -/
theorem best_selects_survivor (o : EngineOpts) (f : CpuFeatures) :
    o.best f = bestAmendedSpec o f := by
  rw [best_eq_foldl, foldl_cascadeStep, bestAmendedSpec]
  by_cases hall : (tierTable o f).all (fun u => u.2) = true
  · simp [hall]
  · simp [hall]

/-- Concrete options for the C2 counterexample: only the VNNI512 tier and
the mandatory fallback are configured. -/
def c2Opts : EngineOpts :=
  { engine_x86_64_vnni512 := some "stockfish-vnni512"
    engine_x86_64_avx512 := none
    engine_x86_64_bmi2 := none
    engine_x86_64_avx2 := none
    engine_x86_64_sse41_popcnt := none
    engine_x86_64_ssse3 := none
    engine_x86_64_sse3_popcnt := none
    engine := "stockfish" }

/-- Concrete CPU snapshot for the C2 counterexample: every AVX-512 feature
present, every lower-tier feature absent. -/
def c2Cpu : CpuFeatures :=
  { avx512dq := true
    avx512vl := true
    avx512vnni := true
    avx512f := true
    avx512bw := true
    bmi2 := false
    avx2 := false
    sse41 := false
    ssse3 := false
    sse3 := false
    popcnt := false }

/-- C2 counterexample: on a CPU with all AVX-512 features but without BMI2,
the claim picks the configured VNNI512 path, yet EngineOpts::best drops it
at the BMI2 filter and returns the fallback engine path. -/
theorem best_counterexample : EngineOpts.best c2Opts c2Cpu ≠ bestClaimSpec c2Opts c2Cpu := by
  decide

/-! ## Registration descriptor and its query encoding (ExternalWorkerOpts) -/

/-- Lowercase hexadecimal digit, as produced by the Rust x format flag. -/
def hexDigitLower (n : Nat) : Char :=
  if n < 10 then Char.ofNat (48 + n) else Char.ofNat (87 + n)

/-- Uppercase hexadecimal digit, as produced by percent encoding. -/
def hexDigitUpper (n : Nat) : Char :=
  if n < 10 then Char.ofNat (48 + n) else Char.ofNat (55 + n)

/-- UTF-8 encoding of one scalar value, the byte stream over which the
form-urlencoded serializer works. -/
def utf8Bytes (c : Char) : List Nat :=
  let n := c.toNat
  if n < 128 then [n]
  else if n < 2048 then [192 + n / 64, 128 + n % 64]
  else if n < 65536 then [224 + n / 4096, 128 + n / 64 % 64, 128 + n % 64]
  else [240 + n / 262144, 128 + n / 4096 % 64, 128 + n / 64 % 64, 128 + n % 64]

/-- Bytes the form-urlencoded serializer leaves unescaped: ASCII
alphanumerics and the asterisk, hyphen, period and underscore. -/
def isUrlSafe (b : Nat) : Bool :=
  (48 ≤ b && b ≤ 57) || (65 ≤ b && b ≤ 90) || (97 ≤ b && b ≤ 122) ||
  b == 42 || b == 45 || b == 46 || b == 95

/-- Form-urlencoding of a single byte: safe bytes stand for themselves,
space becomes a plus sign, everything else is percent-escaped. -/
def encodeByte (b : Nat) : String :=
  if isUrlSafe b then String.mk [Char.ofNat b]
  else if b == 32 then "+"
  else String.mk ['%', hexDigitUpper (b / 16 % 16), hexDigitUpper (b % 16)]

/-- Form-urlencoding of a string: UTF-8 bytes, each encoded. -/
def formUrlencode (s : String) : String :=
  String.join ((s.data.flatMap utf8Bytes).map encodeByte)

/-- Renders key-value pairs as a query string, the way
serde_urlencoded::to_string does. -/
def serializePairs (ps : List (String × String)) : String :=
  String.intercalate "&" (ps.map (fun p => formUrlencode p.1 ++ "=" ++ formUrlencode p.2))

/-- Embeds struct ExternalWorkerOpts from lib.rs. The Secret newtype is a
string; max_threads and max_hash are i64. -/
structure ExternalWorkerOpts where
  url : String
  secret : String
  name : String
  max_threads : Int
  max_hash : Int
  variants : List String
  official_stockfish : Bool

/-- The key-value pairs the serde derive on ExternalWorkerOpts emits, in
declaration order: camelCase keys, variants comma-joined via
StringWithSeparator and skipped when empty, official_stockfish rendered
via DisplayFromStr and skipped when false. -/
def serializeFields (d : ExternalWorkerOpts) : List (String × String) :=
  [("url", d.url), ("secret", d.secret), ("name", d.name),
   ("maxThreads", toString d.max_threads), ("maxHash", toString d.max_hash)]
  ++ (if d.variants.isEmpty then [] else [("variants", String.intercalate "," d.variants)])
  ++ (if d.official_stockfish then [("officialStockfish", "true")] else [])

/-- Embeds ExternalWorkerOpts::registration_url. -/
def ExternalWorkerOpts.registration_url (d : ExternalWorkerOpts) : String :=
  "https://lichess.org/analysis/external?" ++ serializePairs (serializeFields d)

/-- The field list the claim C3 asserts: all seven fields present in every
descriptor, with officialStockfish rendered as a boolean. -/
def claimFields (d : ExternalWorkerOpts) : List (String × String) :=
  [("url", d.url), ("secret", d.secret), ("name", d.name),
   ("maxThreads", toString d.max_threads), ("maxHash", toString d.max_hash),
   ("variants", String.intercalate "," d.variants),
   ("officialStockfish", if d.official_stockfish then "true" else "false")]

/-- Concrete descriptor for the C3 counterexample: no variants, official
flag off. -/
def c3Spec : ExternalWorkerOpts :=
  { url := "u", secret := "s", name := "n", max_threads := 1, max_hash := 1,
    variants := [], official_stockfish := false }

/-- C3 counterexample: for a descriptor with no variants and the official
flag off, the query string of registration_url omits the variants and
officialStockfish fields, so it differs from the seven-field encoding the
claim asserts. -/
theorem registration_url_counterexample :
    ¬ (c3Spec.registration_url =
        "https://lichess.org/analysis/external?" ++ serializePairs (claimFields c3Spec)) := by
  decide

/-- Stated from the amended claim: url, secret, name, maxThreads and
maxHash always appear; variants appears comma-joined exactly when the
variant list is non-empty; officialStockfish appears, as the boolean text
true, exactly when the flag is set. -/
def specQueryFields (d : ExternalWorkerOpts) : List (String × String) :=
  [("url", d.url), ("secret", d.secret), ("name", d.name),
   ("maxThreads", toString d.max_threads), ("maxHash", toString d.max_hash)]
  ++ (match d.variants with
      | [] => []
      | v :: vs => [("variants", String.intercalate "," (v :: vs))])
  ++ (match d.official_stockfish with
      | true => [("officialStockfish", "true")]
      | false => [])

/-- C3 amended: registration_url is the fixed prefix followed by the
query encoding of the five unconditional fields, plus comma-joined
variants only when non-empty and officialStockfish only when true; the
emitted keys are exactly those. -/
theorem registration_url_fields (d : ExternalWorkerOpts) :
    d.registration_url =
      "https://lichess.org/analysis/external?" ++ serializePairs (specQueryFields d) ∧
    (serializeFields d).map Prod.fst =
      ["url", "secret", "name", "maxThreads", "maxHash"]
        ++ (if d.variants.isEmpty then [] else ["variants"])
        ++ (if d.official_stockfish then ["officialStockfish"] else []) := by
  constructor
  · have h : serializeFields d = specQueryFields d := by
      unfold serializeFields specQueryFields
      cases d.variants <;> cases d.official_stockfish <;> simp
    rw [ExternalWorkerOpts.registration_url, h]
  · unfold serializeFields
    cases hv : d.variants <;> cases ho : d.official_stockfish <;> simp

/-! ## Hexadecimal formatting of the random secret -/

/-- Helper for natToHex: structural recursion on a fuel bound so that the
function reduces inside the kernel. -/
def hexAux : Nat → Nat → List Char
  | 0, _ => []
  | fuel + 1, n =>
      if n < 16 then [hexDigitLower n]
      else hexAux fuel (n / 16) ++ [hexDigitLower (n % 16)]

/-- Unpadded lowercase hexadecimal rendering of n, most significant digit
first, as the Rust x format flag produces. -/
def natToHex (n : Nat) : List Char := hexAux (n + 1) n

/-- Embeds format("{\x7b:032x\x7d}", n): lowercase hexadecimal, left-padded
with zeros to width 32. -/
def format032x (n : Nat) : String :=
  String.mk (List.replicate (32 - (natToHex n).length) '0' ++ natToHex n)

/-- A lowercase hexadecimal digit character. -/
def isLowerHexChar (c : Char) : Bool :=
  ('0' ≤ c && c ≤ '9') || ('a' ≤ c && c ≤ 'f')

example : format032x 3735928559 = "000000000000000000000000deadbeef" := by decide

theorem hexAux_length (fuel : Nat) :
    ∀ n k, n < 16 ^ k → 1 ≤ k → (hexAux fuel n).length ≤ k := by
  induction fuel with
  | zero => intro n k _ _; simp [hexAux]
  | succ fuel ih =>
    intro n k hn hk
    by_cases h : n < 16
    · simpa [hexAux, h] using hk
    · have hk2 : 2 ≤ k := by
        by_contra hcon
        have : k = 1 := by omega
        subst this
        simp at hn
        omega
      have hdiv : n / 16 < 16 ^ (k - 1) := by
        have h16 : (16 : Nat) ^ k = 16 ^ (k - 1) * 16 := by
          rw [← pow_succ]
          congr 1
          omega
        rw [Nat.div_lt_iff_lt_mul (by norm_num)]
        omega
      have := ih (n / 16) (k - 1) hdiv (by omega)
      simp only [hexAux, h, if_false, List.length_append, List.length_cons,
        List.length_nil]
      omega

theorem hexDigitLower_mem (m : Nat) (h : m < 16) : isLowerHexChar (hexDigitLower m) = true := by
  interval_cases m <;> decide

theorem hexAux_chars (fuel : Nat) :
    ∀ n c, c ∈ hexAux fuel n → isLowerHexChar c = true := by
  induction fuel with
  | zero => intro n c hc; simp [hexAux] at hc
  | succ fuel ih =>
    intro n c hc
    by_cases h : n < 16
    · simp [hexAux, h] at hc
      subst hc
      exact hexDigitLower_mem n h
    · simp [hexAux, h] at hc
      rcases hc with hc | hc
      · exact ih (n / 16) c hc
      · subst hc
        exact hexDigitLower_mem (n % 16) (Nat.mod_lt n (by norm_num))

theorem format032x_length (n : Nat) (h : n < 16 ^ 32) : (format032x n).length = 32 := by
  have hlen : (natToHex n).length ≤ 32 := hexAux_length (n + 1) n 32 h (by norm_num)
  show (List.replicate (32 - (natToHex n).length) '0' ++ natToHex n).length = 32
  simp only [List.length_append, List.length_replicate]
  omega

theorem format032x_chars (n : Nat) :
    ∀ c ∈ (format032x n).data, isLowerHexChar c = true := by
  intro c hc
  have hc2 : c ∈ List.replicate (32 - (natToHex n).length) '0' ++ natToHex n := hc
  rcases List.mem_append.mp hc2 with hrep | hhex
  · have := List.eq_of_mem_replicate hrep
    subst this
    decide
  · exact hexAux_chars (n + 1) n c hhex

/-! ## Server bootstrap (make_server) -/

/-- Embeds struct Opts from lib.rs. The secret_file option is modelled by
the content that fs::read_to_string returns for the named file, and the
bind option by the address it denotes. -/
structure Opts where
  engine : EngineOpts
  bind : Option String
  name : Option String
  max_threads : Option Nat
  max_hash : Option Nat
  secret_file : Option String
  promise_official_stockfish : Bool

/-- The host observations make_server performs: the CPU feature snapshot,
thread::available_parallelism (a NonZeroUsize), the sysinfo available
memory reading in KiB (u64), the value drawn by random::<u128>, and the
local address of the bound listener. -/
structure Host where
  cpu : CpuFeatures
  available_parallelism : Nat
  available_memory_kib : Nat
  random_u128 : Nat
  local_addr : String

/-- The post-handshake capability record of the spawned engine, as exposed
by the accessors name, variants, max_threads and max_hash (i64) of the
Engine type. -/
structure EngineInfo where
  name : Option String
  variants : List String
  max_threads : Int
  max_hash : Int

/-- Embeds struct EngineParameters handed to Engine::new (u32 fields). -/
structure EngineParameters where
  max_threads : Nat
  max_hash : Nat

/-- The observable outcome of make_server: the secret, the resolved engine
path, the EngineParameters passed to Engine::new, the registration
descriptor, and the target of the redirect served on the root route. -/
structure ServerModel where
  secret : String
  engine_path : String
  params : EngineParameters
  spec : ExternalWorkerOpts
  root_redirect : String

/-- Embeds async fn redirect: the root route answers with a redirect to
the registration URL of the descriptor. -/
def redirect (spec : ExternalWorkerOpts) : String := spec.registration_url

/-- Embeds pub async fn make_server from lib.rs on its success path. -/
def make_server (opts : Opts) (host : Host) (eng : EngineInfo) : ServerModel :=
  let secret := (opts.secret_file.filter (fun s => !s.isEmpty)).getD
      (format032x (host.random_u128 % 2 ^ 128))
  let params : EngineParameters :=
    { max_threads := min (opts.max_threads.getD u32Max) (u32Clamp host.available_parallelism)
      max_hash := min (opts.max_hash.getD u32Max)
        (u32Clamp (available_memory host.available_memory_kib)) }
  let spec : ExternalWorkerOpts :=
    { url := "ws://" ++ host.local_addr ++ "/socket"
      secret := secret
      name := eng.name.getD "remote-uci"
      max_threads := eng.max_threads
      max_hash := eng.max_hash
      variants := eng.variants
      official_stockfish := opts.promise_official_stockfish }
  { secret := secret
    engine_path := opts.engine.best host.cpu
    params := params
    spec := spec
    root_redirect := redirect spec }

theorem getD_le_u32Max (o : Option Nat) (h : ∀ t, o = some t → t ≤ u32Max) :
    o.getD u32Max ≤ u32Max := by
  cases ho : o with
  | none => simp
  | some t => simpa using h t ho

/-- C1: the EngineParameters that make_server passes to Engine::new take
the minimum of the operator cap (u32::MAX when absent) and the host cap:
available parallelism for threads, the u32-clamped available_memory value
for hash; neither field exceeds either bound. The hypotheses record that
the operator caps come from u32 command-line options. -/
theorem make_server_clamps (opts : Opts) (host : Host) (eng : EngineInfo)
    (ht : ∀ t, opts.max_threads = some t → t ≤ u32Max)
    (hh : ∀ t, opts.max_hash = some t → t ≤ u32Max) :
    (make_server opts host eng).params.max_threads
        = min (opts.max_threads.getD u32Max) host.available_parallelism ∧
    (make_server opts host eng).params.max_threads ≤ opts.max_threads.getD u32Max ∧
    (make_server opts host eng).params.max_threads ≤ host.available_parallelism ∧
    (make_server opts host eng).params.max_hash
        = min (opts.max_hash.getD u32Max) (available_memory host.available_memory_kib) ∧
    (make_server opts host eng).params.max_hash ≤ opts.max_hash.getD u32Max ∧
    (make_server opts host eng).params.max_hash
        ≤ available_memory host.available_memory_kib := by
  have h1 := getD_le_u32Max opts.max_threads ht
  have h2 := getD_le_u32Max opts.max_hash hh
  simp only [make_server, u32Clamp]
  omega

/-- Concrete inputs for the C1 witness. -/
def c1Opts : Opts :=
  { engine := c2Opts, bind := none, name := none, max_threads := some 8,
    max_hash := some 512, secret_file := some "tok", promise_official_stockfish := false }

/-- Concrete host snapshot for the C1 witness: 16 hardware threads and
8 GiB of available memory. -/
def c1Host : Host :=
  { cpu := c2Cpu, available_parallelism := 16, available_memory_kib := 8388608,
    random_u128 := 7, local_addr := "127.0.0.1:9670" }

/-- Concrete engine capability record for the C1 witness. -/
def c1Eng : EngineInfo :=
  { name := some "Stockfish 15", variants := ["chess"], max_threads := 8, max_hash := 512 }

/-- C1 witness: the clamping theorem applied at a concrete operator
configuration and host snapshot. -/
theorem make_server_clamps_witness :
    (make_server c1Opts c1Host c1Eng).params.max_threads
        = min (c1Opts.max_threads.getD u32Max) c1Host.available_parallelism ∧
    (make_server c1Opts c1Host c1Eng).params.max_threads ≤ c1Opts.max_threads.getD u32Max ∧
    (make_server c1Opts c1Host c1Eng).params.max_threads ≤ c1Host.available_parallelism ∧
    (make_server c1Opts c1Host c1Eng).params.max_hash
        = min (c1Opts.max_hash.getD u32Max) (available_memory c1Host.available_memory_kib) ∧
    (make_server c1Opts c1Host c1Eng).params.max_hash ≤ c1Opts.max_hash.getD u32Max ∧
    (make_server c1Opts c1Host c1Eng).params.max_hash
        ≤ available_memory c1Host.available_memory_kib :=
  make_server_clamps c1Opts c1Host c1Eng
    (by intro t h; injection h with h2; subst h2; decide)
    (by intro t h; injection h with h2; subst h2; decide)

/-- Concrete inputs for the C4 counterexample: the operator passes 0 for
both caps. -/
def c4Opts : Opts :=
  { engine := c2Opts, bind := none, name := none, max_threads := some 0,
    max_hash := some 0, secret_file := some "tok", promise_official_stockfish := false }

/-- C4 counterexample: with an explicit operator cap of 0, make_server
hands Engine::new parameters with max_threads = 0 and max_hash = 0, so
the claimed lower bound of 1 fails. -/
theorem make_server_params_zero_counterexample :
    ¬ (1 ≤ (make_server c4Opts c1Host c1Eng).params.max_threads ∧
       1 ≤ (make_server c4Opts c1Host c1Eng).params.max_hash) := by
  decide

theorem available_memory_pos (m : Nat) (h : 2048 ≤ m) : 1 ≤ available_memory m := by
  have hx : 2 ≤ m / 1024 := by omega
  have hnpt := le_nptAux (m / 1024) (m / 1024) (by omega)
  simp only [available_memory, next_power_of_two]
  omega

/-- C4 amended: the EngineParameters handed to Engine::new satisfy
max_threads at least 1 and max_hash at least 1, provided every operator
cap that is given is at least 1, the host reports at least one unit of
parallelism, and at least 2048 KiB of memory are available; an explicit
operator cap of 0, or a host below 2048 KiB, produces a 0 field instead. -/
theorem make_server_params_positive (opts : Opts) (host : Host) (eng : EngineInfo)
    (ht : ∀ t, opts.max_threads = some t → 1 ≤ t)
    (hh : ∀ t, opts.max_hash = some t → 1 ≤ t)
    (hp : 1 ≤ host.available_parallelism)
    (hm : 2048 ≤ host.available_memory_kib) :
    1 ≤ (make_server opts host eng).params.max_threads ∧
    1 ≤ (make_server opts host eng).params.max_hash := by
  have h1 : 1 ≤ opts.max_threads.getD u32Max := by
    cases ho : opts.max_threads with
    | none => simp [u32Max]
    | some t => simpa using ht t ho
  have h2 : 1 ≤ opts.max_hash.getD u32Max := by
    cases ho : opts.max_hash with
    | none => simp [u32Max]
    | some t => simpa using hh t ho
  have h3 := available_memory_pos host.available_memory_kib hm
  simp only [make_server, u32Clamp, u32Max] at h1 h2 ⊢
  omega

/-- C4 amended witness: positivity at a concrete configuration. -/
theorem make_server_params_positive_witness :
    1 ≤ (make_server c1Opts c1Host c1Eng).params.max_threads ∧
    1 ≤ (make_server c1Opts c1Host c1Eng).params.max_hash :=
  make_server_params_positive c1Opts c1Host c1Eng
    (by intro t h; injection h with h2; subst h2; decide)
    (by intro t h; injection h with h2; subst h2; decide)
    (by decide)
    (by decide)

/-- C5: the registration descriptor make_server builds takes its url from
the bound listener address, its secret from the generated or loaded
secret, its name, thread, hash and variant fields from the post-handshake
engine capability record, its official flag from the operator option; the
root route redirects exactly to the registration URL of that
descriptor. -/
theorem make_server_descriptor (opts : Opts) (host : Host) (eng : EngineInfo) :
    (make_server opts host eng).spec.url = "ws://" ++ host.local_addr ++ "/socket" ∧
    (make_server opts host eng).spec.secret = (make_server opts host eng).secret ∧
    (make_server opts host eng).spec.name = eng.name.getD "remote-uci" ∧
    (make_server opts host eng).spec.max_threads = eng.max_threads ∧
    (make_server opts host eng).spec.max_hash = eng.max_hash ∧
    (make_server opts host eng).spec.variants = eng.variants ∧
    (make_server opts host eng).spec.official_stockfish = opts.promise_official_stockfish ∧
    (make_server opts host eng).root_redirect
        = ((make_server opts host eng).spec).registration_url :=
  ⟨rfl, rfl, rfl, rfl, rfl, rfl, rfl, rfl⟩

/-- C9: the name field of the registration descriptor is the engine
declared name, or remote-uci when the engine declares none, and the
operator name option has no effect on any output of make_server. -/
theorem make_server_name_ignored (opts : Opts) (host : Host) (eng : EngineInfo)
    (n1 n2 : Option String) :
    make_server { opts with name := n1 } host eng
        = make_server { opts with name := n2 } host eng ∧
    (make_server opts host eng).spec.name = eng.name.getD "remote-uci" :=
  ⟨rfl, rfl⟩

/-- C8: when no secret file is given, or its content is empty, the secret
is the random u128 rendered as exactly 32 lowercase hexadecimal digits;
otherwise the secret is the file content verbatim. -/
theorem make_server_secret (opts : Opts) (host : Host) (eng : EngineInfo) :
    ((opts.secret_file = none ∨ opts.secret_file = some "") →
      (make_server opts host eng).secret = format032x (host.random_u128 % 2 ^ 128) ∧
      ((make_server opts host eng).secret).length = 32 ∧
      (∀ c ∈ ((make_server opts host eng).secret).data, isLowerHexChar c = true)) ∧
    (∀ s, opts.secret_file = some s → s ≠ "" →
      (make_server opts host eng).secret = s) := by
  have hmod : host.random_u128 % 2 ^ 128 < 16 ^ 32 := by
    have : (16 : Nat) ^ 32 = 2 ^ 128 := by norm_num
    rw [this]
    exact Nat.mod_lt _ (by norm_num)
  constructor
  · intro h
    have hsec : (make_server opts host eng).secret
        = format032x (host.random_u128 % 2 ^ 128) := by
      have hemp : "".isEmpty = true := rfl
      rcases h with h | h <;> simp [make_server, h, Option.filter, hemp]
    refine ⟨hsec, ?_, ?_⟩
    · rw [hsec]
      exact format032x_length _ hmod
    · rw [hsec]
      exact format032x_chars _
  · intro s hs hne
    have hemp : s.isEmpty = false := by
      cases he : s.isEmpty with
      | false => rfl
      | true => exact absurd ((String.isEmpty_iff s).mp he) hne
    simp [make_server, hs, hemp, Option.filter]

/-- Concrete inputs for the C8 witness: no secret file configured. -/
def c8Opts : Opts :=
  { engine := c2Opts, bind := none, name := none, max_threads := none,
    max_hash := none, secret_file := none, promise_official_stockfish := false }

/-- C8 witness: the random-secret branch of the theorem at a concrete
random draw. -/
theorem make_server_secret_witness :
    (make_server c8Opts c1Host c1Eng).secret
        = format032x (c1Host.random_u128 % 2 ^ 128) ∧
    ((make_server c8Opts c1Host c1Eng).secret).length = 32 ∧
    (∀ c ∈ ((make_server c8Opts c1Host c1Eng).secret).data, isLowerHexChar c = true) :=
  (make_server_secret c8Opts c1Host c1Eng).1 (Or.inl rfl)

/-! ## Exclusive access arbiter

Modelled from the spec: the Exclusive Access Arbiter (the SharedEngine
type of ws.rs, which is not under src/). Sessions are numbered; the state
records who currently holds the exclusive engine handle and the single
pending successor of the last-writer-wins preemption protocol. -/

/-- Modelled from the spec: arbiter state — the sessions currently holding
the exclusive handle, and at most one pending preemptor. -/
structure ArbiterState where
  holders : List Nat
  waiting : Option Nat

/-- Initial arbiter state: nobody holds the handle. -/
def arbiterInit : ArbiterState := { holders := [], waiting := none }

/-- Modelled from the spec: arbiter transitions. An acquire against a free
arbiter succeeds immediately; an acquire against a busy arbiter records
the newest acquirer as the one pending successor; a release hands the
handle to the pending successor if there is one. -/
inductive ArbiterStep : ArbiterState → ArbiterState → Prop
  | acquire_free (s : Nat) (st : ArbiterState) :
      st.holders = [] → ArbiterStep st { holders := [s], waiting := st.waiting }
  | acquire_busy (s : Nat) (st : ArbiterState) :
      st.holders ≠ [] → ArbiterStep st { holders := st.holders, waiting := some s }
  | release (s : Nat) (st : ArbiterState) :
      st.holders = [s] →
      ArbiterStep st
        { holders := match st.waiting with | some w => [w] | none => []
          waiting := none }

theorem arbiter_step_preserves (st st2 : ArbiterState) (h : ArbiterStep st st2)
    (hst : st.holders.length ≤ 1) : st2.holders.length ≤ 1 := by
  cases h with
  | acquire_free s h2 => simp
  | acquire_busy s h2 => simpa using hst
  | release s h2 => cases st.waiting <;> simp

/-- C6: in every state the arbiter can reach from its initial state, at
most one session holds the exclusive engine handle. -/
theorem arbiter_mutual_exclusion (st : ArbiterState)
    (h : Relation.ReflTransGen ArbiterStep arbiterInit st) : st.holders.length ≤ 1 := by
  induction h with
  | refl => simp [arbiterInit]
  | tail hsteps hstep ih => exact arbiter_step_preserves _ _ hstep ih

/-- C6 witness: the mutual-exclusion bound at the state reached by
session 0 acquiring, session 1 preempting, and session 0 releasing. -/
theorem arbiter_mutual_exclusion_witness :
    (ArbiterState.mk [1] none).holders.length ≤ 1 :=
  arbiter_mutual_exclusion ⟨[1], none⟩
    (Relation.ReflTransGen.tail
      (Relation.ReflTransGen.tail
        (Relation.ReflTransGen.tail Relation.ReflTransGen.refl
          (ArbiterStep.acquire_free 0 arbiterInit rfl))
        (ArbiterStep.acquire_busy 1 ⟨[0], none⟩ (by simp)))
      (ArbiterStep.release 0 ⟨[0], some 1⟩ rfl))

/-! ## Constant-time secret comparison

Modelled from the spec: the authentication comparison of the presented
credential against the configured Secret (ws.rs, not under src/), which
the spec requires to run in time independent of where the first
mismatching byte occurs. The scan accumulates the bitwise or of the
bytewise xors and counts one step per byte pair examined. -/

/-- Modelled from the spec: scan two byte strings, returning the
accumulated difference word and the number of byte steps taken. -/
def ctScan : List Nat → List Nat → Nat × Nat
  | x :: xs, y :: ys =>
      let r := ctScan xs ys
      (r.1 ||| (x ^^^ y), r.2 + 1)
  | _, _ => (0, 0)

/-- Modelled from the spec: constant-time equality — lengths must agree
and the accumulated difference word must be zero. -/
def constant_time_eq (a b : List Nat) : Bool :=
  a.length == b.length && (ctScan a b).1 == 0

/-- The cost of the comparison in byte steps. -/
def ctScanTime (a b : List Nat) : Nat := (ctScan a b).2

theorem lor_eq_zero (x y : Nat) : x ||| y = 0 ↔ x = 0 ∧ y = 0 := by
  constructor
  · intro h
    have hb : ∀ i, (x.testBit i || y.testBit i) = false := by
      intro i
      have h2 := congrArg (fun t => Nat.testBit t i) h
      simpa [Nat.testBit_lor] using h2
    constructor
    · apply Nat.eq_of_testBit_eq
      intro i
      have h3 := hb i
      simp only [Bool.or_eq_false_iff] at h3
      simp [h3.1, Nat.zero_testBit]
    · apply Nat.eq_of_testBit_eq
      intro i
      have h3 := hb i
      simp only [Bool.or_eq_false_iff] at h3
      simp [h3.2, Nat.zero_testBit]
  · rintro ⟨rfl, rfl⟩
    rfl

theorem ctScan_fst_eq_zero :
    ∀ a b : List Nat, a.length = b.length → ((ctScan a b).1 = 0 ↔ a = b) := by
  intro a
  induction a with
  | nil => intro b hb; cases b <;> simp_all [ctScan]
  | cons x xs ih =>
    intro b hb
    cases b with
    | nil => simp at hb
    | cons y ys =>
      have hlen : xs.length = ys.length := by simpa using hb
      simp only [ctScan, lor_eq_zero, Nat.xor_eq_zero, List.cons.injEq]
      rw [ih ys hlen]
      tauto

theorem ctScan_snd :
    ∀ a b : List Nat, (ctScan a b).2 = min a.length b.length := by
  intro a
  induction a with
  | nil => intro b; cases b <;> simp [ctScan]
  | cons x xs ih =>
    intro b
    cases b with
    | nil => simp [ctScan]
    | cons y ys => simp [ctScan, ih ys, Nat.succ_min_succ]

/-- C7: the constant-time comparison is correct — it accepts exactly equal
byte strings — and its step count depends only on the lengths of its two
inputs, never on their contents or on where the first mismatch occurs. -/
theorem constant_time_eq_correct_and_timed :
    (∀ a b : List Nat, constant_time_eq a b = true ↔ a = b) ∧
    (∀ a b a2 b2 : List Nat, a.length = a2.length → b.length = b2.length →
      ctScanTime a b = ctScanTime a2 b2) := by
  constructor
  · intro a b
    unfold constant_time_eq
    constructor
    · intro h
      simp only [Bool.and_eq_true, beq_iff_eq] at h
      exact (ctScan_fst_eq_zero a b h.1).mp h.2
    · rintro rfl
      simp [ctScan_fst_eq_zero a a rfl]
  · intro a b a2 b2 ha hb
    simp [ctScanTime, ctScan_snd, ha, hb]

/-- C7 witness: matching secrets compare equal, and the step count on a
mismatch in the first byte equals the step count on a mismatch in the
last byte. -/
theorem constant_time_eq_witness :
    constant_time_eq [1, 2, 3] [1, 2, 3] = true ∧
    ctScanTime [9, 2, 3] [1, 2, 3] = ctScanTime [1, 2, 9] [1, 2, 3] :=
  ⟨(constant_time_eq_correct_and_timed.1 [1, 2, 3] [1, 2, 3]).mpr rfl,
   constant_time_eq_correct_and_timed.2 [9, 2, 3] [1, 2, 3] [1, 2, 9] [1, 2, 3] rfl rfl⟩

end RemoteUci
